import Mathlib

/-!
Verification model of the URLSpider repository's URL discovery pipeline.

The Python sources modelled here are `utils.py` (`URLNormalizer`), `config.py`
(the blacklist patterns), `filter.py` (`URLFilter`), `extractor.py`
(`SubdomainExtractor`) and `crawler.py` (`WebCrawler.fetch` /
`WebCrawler.crawl_deep`).

The repository calls into CPython's `urllib.parse`; those stdlib primitives
(`urlsplit`, `urlparse`, `urlunsplit`, `urlunparse`, `urljoin`) are modelled
below after CPython 3.9, working on `List Char`.  A raised `ValueError` is
modelled as `none`.  The NFKC check `_checknetloc` (which can only reject
certain non-ASCII host names) is modelled as a no-op.
-/

set_option autoImplicit false

/-- Python `s.split(c, 1)`: `some (before, after)` at the first occurrence of
`c`, `none` if `c` does not occur in the list. -/
def splitFirst (c : Char) : List Char → Option (List Char × List Char)
  | [] => none
  | a :: l =>
    if a = c then some ([], l)
    else
      match splitFirst c l with
      | none => none
      | some (pre, post) => some (a :: pre, post)

/-- Split at the last occurrence of `c`: `some (before, after)`, where `c`
does not occur in `after`.  Used to model Python's `rfind`. -/
def splitLast (c : Char) (l : List Char) : Option (List Char × List Char) :=
  match splitFirst c l.reverse with
  | none => none
  | some (pre, post) => some (post.reverse, pre.reverse)

/-- Python `s.split(c)` (all occurrences); `"".split(c) == ['']`. -/
def splitOnChar (c : Char) : List Char → List (List Char)
  | [] => [[]]
  | a :: l =>
    if a = c then [] :: splitOnChar c l
    else
      match splitOnChar c l with
      | [] => [[a]]
      | p :: ps => (a :: p) :: ps

/-- Python `c.join(parts)` for a one-character separator. -/
def joinChar (c : Char) : List (List Char) → List Char
  | [] => []
  | [p] => p
  | p :: ps => p ++ c :: joinChar c ps

/-- Python `str.lower()` (ASCII letters; `Char.toLower` only maps `A`-`Z`). -/
def lowerL (l : List Char) : List Char := l.map Char.toLower

/-- CPython `urllib.parse` removes `_UNSAFE_URL_BYTES_TO_REMOVE`
(tab, carriage return, newline) from the URL before splitting it. -/
def removeUnsafe (l : List Char) : List Char :=
  l.filter fun c => ¬(c = '\t' ∨ c = '\r' ∨ c = '\n')

/-- CPython `scheme_chars`: ASCII letters, digits, `+`, `-`, `.`. -/
def isSchemeChar (c : Char) : Bool :=
  c.isAlpha || c.isDigit || c = '+' || c = '-' || c = '.'

/-- A character at which `_splitnetloc` stops (`'/?#'`). -/
def notNetlocDelim (c : Char) : Bool :=
  ¬(c = '/' ∨ c = '?' ∨ c = '#')

/-- Result of CPython's `urlsplit`. -/
structure SplitResult where
  scheme : List Char
  netloc : List Char
  path : List Char
  query : List Char
  fragment : List Char
  deriving Repr, DecidableEq

/-- CPython 3.9 `urllib.parse.urlsplit(url, scheme=default)` with
`allow_fragments=True`.  `none` models a raised `ValueError` (the unmatched
IPv6-bracket check); `_checknetloc` is modelled as a no-op. -/
def urlsplitE (url0 : List Char) (defaultScheme : List Char) : Option SplitResult :=
  let url1 := removeUnsafe url0
  let default1 := removeUnsafe defaultScheme
  -- scheme: `i = url.find(':'); if i > 0 and all chars before are scheme chars`
  let p1 : List Char × List Char :=
    match splitFirst ':' url1 with
    | some (pre, post) =>
      if pre ≠ [] ∧ pre.all isSchemeChar then (lowerL pre, post) else (default1, url1)
    | none => (default1, url1)
  let scheme := p1.1
  let url2 := p1.2
  -- netloc: `if url[:2] == '//': netloc, url = _splitnetloc(url, 2)`
  let p2 : List Char × List Char :=
    if url2.take 2 = ['/', '/'] then
      ((url2.drop 2).takeWhile notNetlocDelim, (url2.drop 2).dropWhile notNetlocDelim)
    else ([], url2)
  let netloc := p2.1
  let url3 := p2.2
  if ('[' ∈ netloc) ≠ (']' ∈ netloc) then none
  else
    -- fragment: `if '#' in url: url, fragment = url.split('#', 1)`
    let p3 : List Char × List Char :=
      match splitFirst '#' url3 with
      | some (pre, post) => (pre, post)
      | none => (url3, [])
    -- query: `if '?' in url: url, query = url.split('?', 1)`
    let p4 : List Char × List Char :=
      match splitFirst '?' p3.1 with
      | some (pre, post) => (pre, post)
      | none => (p3.1, [])
    some ⟨scheme, netloc, p4.1, p4.2, p3.2⟩

/-- Result of CPython's `urlparse`. -/
structure ParseResult where
  scheme : List Char
  netloc : List Char
  path : List Char
  params : List Char
  query : List Char
  fragment : List Char
  deriving Repr, DecidableEq

/-- CPython `_splitparams(url)`:  split `;params` off the last path segment.
Only called when `';' in url`; the impossible no-`;` cases return the input
unchanged. -/
def splitparamsL (url : List Char) : List Char × List Char :=
  if '/' ∈ url then
    match splitLast '/' url with
    | some (a, b) =>
      match splitFirst ';' b with
      | some (b1, b2) => (a ++ '/' :: b1, b2)
      | none => (url, [])
    | none => (url, [])
  else
    match splitFirst ';' url with
    | some (u1, u2) => (u1, u2)
    | none => (url, [])

/-- CPython 3.9 `urllib.parse.urlparse(url, scheme=default)`. -/
def urlparseE (url : List Char) (defaultScheme : List Char) : Option ParseResult :=
  (urlsplitE url defaultScheme).map fun r =>
    if ';' ∈ r.path then
      let pp := splitparamsL r.path
      ⟨r.scheme, r.netloc, pp.1, pp.2, r.query, r.fragment⟩
    else
      ⟨r.scheme, r.netloc, r.path, [], r.query, r.fragment⟩

/-- CPython `urllib.parse.urlunsplit`. -/
def urlunsplitL (scheme netloc url query fragment : List Char) : List Char :=
  let url1 :=
    if netloc ≠ [] ∨ (url ≠ [] ∧ url.take 2 = ['/', '/']) then
      '/' :: '/' :: netloc ++ (if url ≠ [] ∧ url.take 1 ≠ ['/'] then '/' :: url else url)
    else url
  let url2 := if scheme ≠ [] then scheme ++ ':' :: url1 else url1
  let url3 := if query ≠ [] then url2 ++ '?' :: query else url2
  if fragment ≠ [] then url3 ++ '#' :: fragment else url3

/-- CPython `urllib.parse.urlunparse`. -/
def urlunparseL (scheme netloc url params query fragment : List Char) : List Char :=
  urlunsplitL scheme netloc (if params ≠ [] then url ++ ';' :: params else url) query fragment

/-- CPython `urllib.parse.uses_relative`. -/
def usesRelative : List (List Char) :=
  ["", "ftp", "http", "gopher", "nntp", "imap", "wais", "file", "https", "shttp",
   "mms", "prospero", "rtsp", "rtspu", "sftp", "svn", "svn+ssh", "ws", "wss"].map String.data

/-- CPython `urllib.parse.uses_netloc`. -/
def usesNetloc : List (List Char) :=
  ["", "ftp", "http", "gopher", "nntp", "telnet", "imap", "wais", "file", "mms",
   "https", "shttp", "snews", "prospero", "rtsp", "rtspu", "rsync", "svn",
   "svn+ssh", "sftp", "nfs", "git", "git+ssh", "ws", "wss"].map String.data

/-- The slice assignment `segments[1:-1] = filter(None, segments[1:-1])` in
CPython's `urljoin`: drop empty segments, keeping the first and last. -/
def filterMiddleGo : List (List Char) → List (List Char)
  | [] => []
  | [x] => [x]
  | x :: xs => if x = [] then filterMiddleGo xs else x :: filterMiddleGo xs

/-- See `filterMiddleGo`. -/
def filterMiddle : List (List Char) → List (List Char)
  | [] => []
  | [x] => [x]
  | x :: xs => x :: filterMiddleGo xs

/-- The segment-resolution loop of CPython's `urljoin`: `'..'` pops (ignoring
pops of an empty stack), `'.'` is dropped, anything else is appended. -/
def resolveSegments (segs : List (List Char)) : List (List Char) :=
  segs.foldl
    (fun acc seg =>
      if seg = ['.', '.'] then acc.dropLast
      else if seg = ['.'] then acc
      else acc ++ [seg])
    []

/-- CPython 3.9 `urllib.parse.urljoin(base, url)`.  `none` models a raised
`ValueError` from `urlparse`. -/
def urljoinE (base url : List Char) : Option (List Char) :=
  if base = [] then some url
  else if url = [] then some base
  else
    match urlparseE base [] with
    | none => none
    | some b =>
      match urlparseE url b.scheme with
      | none => none
      | some r =>
        if r.scheme ≠ b.scheme ∨ r.scheme ∉ usesRelative then some url
        else if r.scheme ∈ usesNetloc ∧ r.netloc ≠ [] then
          some (urlunparseL r.scheme r.netloc r.path r.params r.query r.fragment)
        else
          let netloc := if r.scheme ∈ usesNetloc then b.netloc else r.netloc
          if r.path = [] ∧ r.params = [] then
            let query := if r.query = [] then b.query else r.query
            some (urlunparseL r.scheme netloc b.path b.params query r.fragment)
          else
            let baseParts0 := splitOnChar '/' b.path
            let baseParts :=
              if baseParts0.getLast? ≠ some [] then baseParts0.dropLast else baseParts0
            let segments :=
              if r.path.take 1 = ['/'] then splitOnChar '/' r.path
              else filterMiddle (baseParts ++ splitOnChar '/' r.path)
            let resolved0 := resolveSegments segments
            let resolved :=
              if segments.getLast? = some ['.'] ∨ segments.getLast? = some ['.', '.'] then
                resolved0 ++ [[]]
              else resolved0
            let joined := joinChar '/' resolved
            some (urlunparseL r.scheme netloc (if joined = [] then ['/'] else joined)
              r.params r.query r.fragment)

/-! ## `utils.py`: `URLNormalizer` -/

/-- The whitespace characters removed by Python's `str.strip()` (ASCII part). -/
def pyIsSpace (c : Char) : Bool :=
  c = ' ' ∨ c = '\t' ∨ c = '\n' ∨ c = '\r' ∨ c = '\x0b' ∨ c = '\x0c'

/-- Remove characters satisfying `p` from both ends (Python `str.strip`). -/
def pyStripWhen (p : Char → Bool) (l : List Char) : List Char :=
  (((l.dropWhile p).reverse).dropWhile p).reverse

/-- Python `str.strip()` (no argument: whitespace). -/
def pyStripWS (l : List Char) : List Char := pyStripWhen pyIsSpace l

/-- `url.strip().strip('"').strip("'")` from `URLNormalizer.normalize`. -/
def stripAll (l : List Char) : List Char :=
  pyStripWhen (fun c => c = '\'') (pyStripWhen (fun c => c = '"') (pyStripWS l))

/-- The `black_keywords` list in `URLNormalizer.normalize`. -/
def black_keywords : List (List Char) :=
  ["javascript:", "mailto:", "tel:", "data:", "blob:", "about:"].map String.data

/-- The path-segment loop of `URLNormalizer._normalize_components`:
`.` segments are dropped, `..` pops the collected segments when non-empty,
everything else is appended. -/
def normPathParts (parts : List (List Char)) : List (List Char) :=
  parts.foldl
    (fun acc part =>
      if part = ['.'] then acc
      else if part = ['.', '.'] then acc.dropLast
      else acc ++ [part])
    []

namespace URLNormalizer

/-- `URLNormalizer._normalize_components` on `List Char`; `[]` is the empty
string returned when any parsing step raises. -/
def normalizeComponentsL (url : List Char) : List Char :=
  match urlparseE url [] with
  | none => []
  | some p =>
    let scheme := lowerL p.scheme
    let netloc0 := lowerL p.netloc
    let netloc :=
      if ':' ∈ netloc0 then
        match splitFirst ':' netloc0 with
        | some (host, port) =>
          if (scheme = "http".data ∧ port = "80".data) ∨
             (scheme = "https".data ∧ port = "443".data) then host
          else netloc0
        | none => netloc0
      else netloc0
    let path0 := if p.path = [] then ['/'] else p.path
    let path := joinChar '/' (normPathParts (splitOnChar '/' path0))
    urlunparseL scheme netloc path p.params p.query []

/-- `startswith(('http://', 'https://', 'ftp://'))`. -/
def isAbsolutePrefixed (url : List Char) : Bool :=
  "http://".data.isPrefixOf url || "https://".data.isPrefixOf url ||
    "ftp://".data.isPrefixOf url

/-- `URLNormalizer.normalize` on `List Char`.  `base = none` and
`base = some []` are both falsy in Python (`if not base_url`). -/
def normalizeL (url : List Char) (base : Option (List Char)) : List Char :=
  if url = [] ∨ pyStripWS url = [] then []
  else
    let url := stripAll url
    if black_keywords.any (fun kw => kw.isPrefixOf (lowerL url)) then []
    else
      match base with
      | none => if isAbsolutePrefixed url then normalizeComponentsL url else []
      | some b =>
        if b = [] then
          if isAbsolutePrefixed url then normalizeComponentsL url else []
        else
          match urljoinE b url with
          | none => []
          | some absolute => normalizeComponentsL absolute

/-- `URLNormalizer.normalize(url, base_url)` at `String` level. -/
def normalize (url : String) (base : Option String) : String :=
  ⟨normalizeL url.data (base.map String.data)⟩

/-- `URLNormalizer.get_domain`: the lowercased netloc, `""` on a parse error. -/
def get_domain (url : String) : String :=
  match urlparseE url.data [] with
  | none => ""
  | some p => ⟨lowerL p.netloc⟩

/-- `URLNormalizer.get_base_domain`: the registrable domain of a URL's host
(with the hard-coded `.co.uk` / `.com.cn` special cases). -/
def get_base_domain (url : String) : String :=
  let domain := (get_domain url).data
  if domain = [] then ""
  else
    let parts := splitOnChar '.' domain
    if parts.length > 2 then
      if ".co.uk".data.isSuffixOf domain ∨ ".com.cn".data.isSuffixOf domain then
        ⟨joinChar '.' (parts.drop (parts.length - 3))⟩
      else ⟨joinChar '.' (parts.drop (parts.length - 2))⟩
    else ⟨domain⟩

end URLNormalizer

/-! ## `config.py`: `BLACKLIST_PATTERNS`

Each compiled regex is modelled as a `String → Bool` with the semantics of
`pattern.search` on that concrete pattern.  All twelve patterns are anchored
with `^`, so `search` is a prefix (or full-string) test. -/

/-- Characters of the CJK range `[一-龥]` used by two patterns. -/
def isCJK (c : Char) : Bool := 0x4e00 ≤ c.val ∧ c.val ≤ 0x9fa5

/-- `re.search` of an `^literal` pattern compiled with `re.IGNORECASE`. -/
def matchPrefixCI (kw : String) (s : String) : Bool :=
  kw.data.isPrefixOf (lowerL s.data)

/-- `config.BLACKLIST_PATTERNS` as search functions, in source order. -/
def BLACKLIST_PATTERNS : List (String → Bool) :=
  [ matchPrefixCI "javascript:",
    matchPrefixCI "mailto:",
    matchPrefixCI "tel:",
    matchPrefixCI "#",
    matchPrefixCI "data:",
    matchPrefixCI "blob:",
    matchPrefixCI "about:",
    -- `^(true|false|null|undefined)$`, IGNORECASE
    fun s => lowerL s.data ∈ ["true", "false", "null", "undefined"].map String.data,
    -- `^(webkit|moz|ms|o)-?`, IGNORECASE: the optional `-` cannot affect whether
    -- a match exists, so this is a prefix test
    fun s => ["webkit", "moz", "ms", "o"].any fun kw => matchPrefixCI kw s,
    -- `^[\d\s一-龥%]+$`
    fun s => s.data ≠ [] ∧ s.data.all fun c => c.isDigit ∨ pyIsSpace c ∨ isCJK c ∨ c = '%',
    -- `^(width|height|initial-scale|maximum-scale|minimum-scale|user-scalable)`, IGNORECASE
    fun s => ["width", "height", "initial-scale", "maximum-scale", "minimum-scale",
              "user-scalable"].any fun kw => matchPrefixCI kw s,
    -- `^[一-龥]`
    fun s => match s.data with | [] => false | c :: _ => isCJK c ]

/-! ## `filter.py`: `URLFilter` -/

/-- The state of a constructed `URLFilter`.  User-supplied exclude/include
regexes are modelled as arbitrary search functions. -/
structure URLFilter where
  domain : Option String
  include_subdomains : Bool
  exclude_patterns : List (String → Bool)
  include_patterns : List (String → Bool)
  base_domain : Option String

/-- `URLFilter.__init__`: prepends the blacklist to the user exclude patterns
and computes `base_domain` from the (truthy) target domain. -/
def mkURLFilter (domain : Option String) (include_subdomains : Bool)
    (excl incl : List (String → Bool)) : URLFilter :=
  { domain := domain
    include_subdomains := include_subdomains
    exclude_patterns := BLACKLIST_PATTERNS ++ excl
    include_patterns := incl
    base_domain :=
      match domain with
      | none => none
      | some d => if d = "" then none else some (URLNormalizer.get_base_domain d) }

namespace URLFilter

/-- Word characters of `^[a-zA-Z0-9_\-]+\.[a-zA-Z]{2,}`. -/
def isWordChar (c : Char) : Bool := c.isAlphanum || c = '_' || c = '-'

/-- `re.match(r'^[a-zA-Z0-9_\-]+\.[a-zA-Z]{2,}', url)`: a non-empty run of
word characters, a dot, then at least two letters.  The character class and
`.` are disjoint, so the greedy run is exact. -/
def matchesDomainLike (url : List Char) : Bool :=
  let run := url.takeWhile isWordChar
  !run.isEmpty &&
    match url.drop run.length with
    | '.' :: a :: b :: _ => a.isAlpha && b.isAlpha
    | _ => false

/-- Characters of the class letters, digits, underscore, hyphen, slash. -/
def isRelChar (c : Char) : Bool := c.isAlphanum || c = '_' || c = '-' || c = '/'

/-- `re.match` of the relative-file pattern (two optional leading dots, an
optional slash, a run of the class above, a dot, 1-10 letters): at most two
leading dots, an optional slash (subsumed by the following class, which
contains `/`), a non-empty class run, a dot and at least one letter. -/
def matchesRelativeFile (url : List Char) : Bool :=
  let rest := url.dropWhile (· = '.')
  let dots := url.length - rest.length
  if dots > 2 then false
  else
    let run := rest.takeWhile isRelChar
    !run.isEmpty &&
      match rest.drop run.length with
      | '.' :: a :: _ => a.isAlpha
      | _ => false

/-- `URLFilter._is_valid_url_format`. -/
def is_valid_url_format (url : List Char) : Bool :=
  if url.length < 3 then false
  -- `^[^a-zA-Z0-9/]+$`: only special characters
  else if url ≠ [] ∧ url.all (fun c => ¬(c.isAlphanum ∨ c = '/')) then false
  -- must contain at least one alphanumeric character
  else if ¬ url.any (·.isAlphanum) then false
  else if ("http://".data.isPrefixOf url || "https://".data.isPrefixOf url ||
           "ftp://".data.isPrefixOf url || "//".data.isPrefixOf url ||
           "/".data.isPrefixOf url) ∨ matchesDomainLike url then true
  else matchesRelativeFile url

/-- `URLFilter._is_subdomain`. -/
def is_subdomain (url_domain base_domain : String) : Bool :=
  if url_domain = "" ∨ base_domain = "" then false
  else url_domain = base_domain ∨ ('.' :: base_domain.data).isSuffixOf url_domain.data

/-- `URLFilter._matches_include_patterns`. -/
def matches_include (f : URLFilter) (url : String) : Bool :=
  f.include_patterns.any (· url)

/-- The domain-scope block of `URLFilter.filter` (lines 72-91).  `some true`
means the block falls through, `some false` an early `return False`; `none`
models the `ValueError` that the unguarded `urlparse` call would propagate. -/
def scope_ok (f : URLFilter) (normalized : List Char) : Option Bool :=
  match f.domain with
  | none => some true
  | some d =>
    if d = "" then some true
    else
      match urlparseE normalized [] with
      | none => none
      | some parsed =>
        let url_domain : String := ⟨lowerL parsed.netloc⟩
        if url_domain = "" then some true
        else if f.include_subdomains then
          some (is_subdomain url_domain (f.base_domain.getD "") ||
                f.matches_include ⟨normalized⟩)
        else
          some (URLNormalizer.get_base_domain url_domain = f.base_domain.getD "" ||
                f.matches_include ⟨normalized⟩)

/-- `URLFilter.filter`: `some true` admits the URL, `some false` rejects it,
`none` models a propagated exception. -/
def filter (f : URLFilter) (url : String) : Option Bool :=
  if url = "" ∨ pyStripWS url.data = [] then some false
  else
    let url1 := pyStripWS url.data
    if ¬ is_valid_url_format url1 then some false
    else
      let normalized := URLNormalizer.normalizeL url1 (f.domain.map String.data)
      if normalized = [] then some false
      else if f.exclude_patterns.any (fun p => p ⟨normalized⟩) then some false
      else
        match scope_ok f normalized with
        | none => none
        | some false => some false
        | some true =>
          if !f.include_patterns.isEmpty && !f.matches_include ⟨normalized⟩ then some false
          else some true

end URLFilter

/-! ## `filter.py`: `URLFilter.categorize_urls` -/

/-- The six buckets of `URLFilter.categorize_urls`, fields in source order. -/
structure Categories where
  internal : List String
  subdomains : List String
  external : List String
  files : List String
  apis : List String
  static : List String
  deriving Repr, DecidableEq

/-- The empty bucket dictionary. -/
def Categories.empty : Categories := ⟨[], [], [], [], [], []⟩

/-- Static-resource extensions checked by `categorize_urls`. -/
def staticExts : List String :=
  [".js", ".css", ".png", ".jpg", ".jpeg", ".gif", ".svg", ".ico", ".woff", ".woff2"]

/-- Document extensions checked by `categorize_urls`. -/
def fileExts : List String :=
  [".pdf", ".doc", ".docx", ".xls", ".xlsx", ".ppt", ".pptx"]

/-- Python's substring test `needle in hay`. -/
def containsSub (needle : List Char) : List Char → Bool
  | [] => needle.isEmpty
  | a :: l => needle.isPrefixOf (a :: l) || containsSub needle l

namespace URLFilter

/-- One iteration of the `categorize_urls` loop.  `none` models the
`ValueError` that the unguarded `urlparse` call would propagate. -/
def categorizeOne (f : URLFilter) (c : Categories) (url : String) : Option Categories :=
  let normalized := URLNormalizer.normalizeL url.data (f.domain.map String.data)
  match urlparseE normalized [] with
  | none => none
  | some parsed =>
    let nstr : String := ⟨normalized⟩
    let path := lowerL parsed.path
    let c1 :=
      if staticExts.any (fun e => e.data.isSuffixOf path) then
        { c with static := c.static ++ [nstr] }
      else if fileExts.any (fun e => e.data.isSuffixOf path) then
        { c with files := c.files ++ [nstr] }
      else if containsSub "/api/".data path || ".json".data.isSuffixOf path ||
              ".xml".data.isSuffixOf path then
        { c with apis := c.apis ++ [nstr] }
      else c
    let url_domain : String := ⟨lowerL parsed.netloc⟩
    some
      (if url_domain = "" then { c1 with internal := c1.internal ++ [nstr] }
       else if url_domain = URLNormalizer.get_domain (f.domain.getD "") then
         { c1 with internal := c1.internal ++ [nstr] }
       else if some (URLNormalizer.get_base_domain url_domain) = f.base_domain then
         { c1 with subdomains := c1.subdomains ++ [nstr] }
       else { c1 with external := c1.external ++ [nstr] })

/-- `URLFilter.categorize_urls`: with a falsy target domain the empty buckets
are returned at once; otherwise each URL is normalized, re-parsed and
appended to buckets.  `none` models a propagated `ValueError`. -/
def categorize_urls (f : URLFilter) (urls : List String) : Option Categories :=
  match f.domain with
  | none => some Categories.empty
  | some d =>
    if d = "" then some Categories.empty
    else urls.foldl (fun acc url => acc.bind fun c => f.categorizeOne c url)
      (some Categories.empty)

end URLFilter

/-! ## `extractor.py`: `SubdomainExtractor` -/

/-- Public suffixes known to the `tldextract` model, longest first. -/
def knownSuffixes : List (List Char) :=
  ["co.uk", "com.cn", "co.jp", "com.au", "co.in",
   "com", "org", "net", "edu", "gov", "mil", "int", "io", "cn", "uk", "de",
   "fr", "jp", "ru", "br", "in", "au", "info", "biz", "xyz", "dev", "app"].map String.data

/-- Modelled from the library behaviour of `tldextract.extract` (a third-party
dependency, not part of this repository): split a host into
`(subdomain, domain, suffix)` using a public-suffix table, taking the longest
matching suffix; a host without a known suffix has everything but its last
label as subdomain and an empty suffix. -/
def tldextractL (host : List Char) : List Char × List Char × List Char :=
  let suffix? := knownSuffixes.find? fun suf =>
    host = suf ∨ ('.' :: suf).isSuffixOf host
  match suffix? with
  | some suf =>
    if host = suf then ([], [], suf)
    else
      let rem := host.take (host.length - (suf.length + 1))
      let labels := splitOnChar '.' rem
      (joinChar '.' labels.dropLast, (labels.getLast?).getD [], suf)
  | none =>
    let labels := splitOnChar '.' host
    (joinChar '.' labels.dropLast, (labels.getLast?).getD [], [])

/-- The state of a constructed `SubdomainExtractor`. -/
structure SubdomainExtractor where
  domain : String
  base_domain : String

/-- `SubdomainExtractor.__init__`. -/
def mkSubdomainExtractor (domain : String) : SubdomainExtractor :=
  ⟨domain, URLNormalizer.get_base_domain domain⟩

/-- `SubdomainExtractor.extract_from_urls`: for each URL, lowercase its host,
reassemble the non-empty parts of its `tldextract` split, and keep the result
when it ends with the base domain string and differs from it.  The Python set
is modelled as a deduplicating list; a caught exception skips the URL. -/
def SubdomainExtractor.extract_from_urls (se : SubdomainExtractor)
    (urls : List String) : List String :=
  urls.foldl
    (fun acc url =>
      match urlparseE url.data [] with
      | none => acc
      | some parsed =>
        let url_domain := lowerL parsed.netloc
        if url_domain = [] then acc
        else
          let ext := tldextractL url_domain
          let full_domain : String :=
            ⟨joinChar '.' ([ext.1, ext.2.1, ext.2.2].filter (· ≠ []))⟩
          if se.base_domain.data.isSuffixOf full_domain.data ∧
             full_domain ≠ se.base_domain then
            if full_domain ∈ acc then acc else acc ++ [full_domain]
          else acc)
    []

/-! ## `crawler.py`: `WebCrawler.fetch` and `WebCrawler.crawl_deep`

The HTTP transport is abstracted as an oracle `String → Option String`
(`none` is any fetch failure: timeout, connection error, non-2xx status);
`extractor.extract_from_html` and the enqueue filter are likewise abstracted
as function parameters — every theorem below holds for all of them. -/

namespace WebCrawler

/-- `WebCrawler.fetch`: returns `None` without fetching when the URL was
already visited; on success the URL is added to `visited_urls` and the body
returned; on failure (`none` from the oracle) nothing is added. -/
def fetch (oracle : String → Option String) (visited : List String) (url : String) :
    Option String × List String :=
  if url ∈ visited then (none, visited)
  else
    match oracle url with
    | none => (none, visited)
    | some content => (some content, url :: visited)

/-- `WebCrawler.crawl_page` (with `extract_js=False`): fetch, then extract;
a falsy body (failure or empty page) yields no URLs. -/
def crawl_page (oracle : String → Option String) (extractF : String → String → List String)
    (visited : List String) (url : String) : List String × List String :=
  let fr := fetch oracle visited url
  match fr.1 with
  | none => ([], fr.2)
  | some content => (if content = "" then [] else extractF content url, fr.2)

/-- The mutable state of the `crawl_deep` loop. -/
structure CrawlState where
  queue : List (String × Nat)
  visited : List String
  allUrls : List String
  processed : Nat
  deriving Repr

/-- One iteration of the `while queue and processed < max_pages` loop of
`WebCrawler.crawl_deep`; `none` means the loop guard fails and the loop
exits.  A task whose URL is already visited is discarded without counting;
otherwise the page is crawled, its URLs unioned into the result set, and
(below `maxDepth`) the admitted URLs are appended to the queue at
`depth + 1`. -/
def crawlStep (oracle : String → Option String) (extractF : String → String → List String)
    (flt : String → Bool) (maxDepth maxPages : Nat) (s : CrawlState) : Option CrawlState :=
  match s.queue with
  | [] => none
  | (url, depth) :: rest =>
    if maxPages ≤ s.processed then none
    else if url ∈ s.visited then some { s with queue := rest }
    else
      let pv := crawl_page oracle extractF s.visited url
      let allUrls := pv.1.foldl (fun a u => if u ∈ a then a else a ++ [u]) s.allUrls
      let queue :=
        rest ++ (if depth < maxDepth then (pv.1.filter flt).map (fun u => (u, depth + 1)) else [])
      some ⟨queue, pv.2, allUrls, s.processed + 1⟩

/-- Run up to `n` loop iterations (the loop stops early when the guard
fails). -/
def crawlIter (oracle : String → Option String) (extractF : String → String → List String)
    (flt : String → Bool) (maxDepth maxPages : Nat) : Nat → CrawlState → CrawlState
  | 0, s => s
  | n + 1, s =>
    match crawlStep oracle extractF flt maxDepth maxPages s with
    | none => s
    | some s' => crawlIter oracle extractF flt maxDepth maxPages n s'

/-- The initial state of `crawl_deep`: the queue seeded with
`(start_url, 0)`, the crawler's (possibly non-empty) visited set, no results,
`processed = 0`. -/
def initCrawlState (start : String) (visited0 : List String) : CrawlState :=
  ⟨[(start, 0)], visited0, [], 0⟩

/-- `max_depth = max_depth or REQUEST_CONFIG['max_depth']` with the
configured default of 3: `None` and `0` are falsy. -/
def effectiveMaxDepth (md : Option Nat) : Nat :=
  match md with
  | none => 3
  | some 0 => 3
  | some d => d

end WebCrawler

/-! ## Canonical absolute URLs

The classes below characterize a canonical absolute URL
`scheme://host/path?query` on which normalization is proved idempotent:
lowercase host without port or brackets, slash-rooted path free of dot
segments and parameter separators, and no characters that the normalizer
strips or splits on in unexpected positions. -/

/-- Characters of a canonical host: lowercase ASCII letters, digits, `.`,
`-`.  Excludes `:` (ports), brackets, delimiters, uppercase, whitespace. -/
def hostChar (c : Char) : Bool :=
  (97 ≤ c.toNat ∧ c.toNat ≤ 122) ∨ (48 ≤ c.toNat ∧ c.toNat ≤ 57) ∨ c = '.' ∨ c = '-'

/-- Characters allowed in a canonical path: everything except the query,
fragment and parameter delimiters, quotes and whitespace. -/
def pathChar (c : Char) : Bool :=
  ¬(c = '?' ∨ c = '#' ∨ c = ';' ∨ c = '"' ∨ c = '\'' ∨ pyIsSpace c)

/-- Characters allowed in a canonical query: everything except the fragment
delimiter, quotes and whitespace. -/
def queryChar (c : Char) : Bool :=
  ¬(c = '#' ∨ c = '"' ∨ c = '\'' ∨ pyIsSpace c)

/-- The string `scheme://host path ?query` (query part omitted when the
query is empty). -/
def canonURL (s h p q : String) : String :=
  ⟨s.data ++ ':' :: '/' :: '/' :: (h.data ++ p.data ++
    (if q.data = [] then [] else '?' :: q.data))⟩

/-! ## Helper lemmas -/

theorem pyStripWhen_nil (p : Char → Bool) : pyStripWhen p [] = [] := rfl

theorem dropWhile_eq_self_of_all {p : Char → Bool} {l : List Char}
    (h : ∀ c ∈ l, p c = false) : l.dropWhile p = l := by
  cases l with
  | nil => rfl
  | cons a l =>
    rw [List.dropWhile_cons, if_neg]
    simp [h a (List.mem_cons_self a l)]

theorem pyStripWhen_eq_self {p : Char → Bool} {l : List Char}
    (h : ∀ c ∈ l, p c = false) : pyStripWhen p l = l := by
  unfold pyStripWhen
  rw [dropWhile_eq_self_of_all h,
    dropWhile_eq_self_of_all (fun c hc => h c (List.mem_reverse.mp hc)),
    List.reverse_reverse]

theorem stripAll_eq_self {l : List Char} (hws : ∀ c ∈ l, pyIsSpace c = false)
    (h1 : ∀ c ∈ l, c ≠ '"') (h2 : ∀ c ∈ l, c ≠ '\'') : stripAll l = l := by
  have e1 : pyStripWS l = l := pyStripWhen_eq_self hws
  have e2 : pyStripWhen (fun c => c = '"') l = l :=
    pyStripWhen_eq_self (fun c hc => by simp [h1 c hc])
  have e3 : pyStripWhen (fun c => c = '\'') l = l :=
    pyStripWhen_eq_self (fun c hc => by simp [h2 c hc])
  unfold stripAll
  rw [e1, e2, e3]

theorem splitFirst_not_mem {c : Char} {l : List Char} (h : c ∉ l) :
    splitFirst c l = none := by
  induction l with
  | nil => rfl
  | cons a l ih =>
    have hac : ¬(a = c) := fun h' => h (h' ▸ List.mem_cons_self a l)
    rw [splitFirst, if_neg hac, ih (fun hm => h (List.mem_cons_of_mem _ hm))]

theorem splitFirst_append {c : Char} {a b : List Char} (h : c ∉ a) :
    splitFirst c (a ++ c :: b) = some (a, b) := by
  induction a with
  | nil => simp [splitFirst]
  | cons x a ih =>
    have hxc : ¬(x = c) := fun h' => h (h' ▸ List.mem_cons_self x a)
    rw [List.cons_append, splitFirst, if_neg hxc,
      ih (fun hm => h (List.mem_cons_of_mem _ hm))]

theorem takeWhile_append_all {p : Char → Bool} {a : List Char} (b : List Char)
    (h : ∀ x ∈ a, p x = true) : (a ++ b).takeWhile p = a ++ b.takeWhile p := by
  induction a with
  | nil => rfl
  | cons x a ih =>
    rw [List.cons_append, List.takeWhile_cons, if_pos (h x (List.mem_cons_self _ _)),
      ih (fun y hy => h y (List.mem_cons_of_mem _ hy)), List.cons_append]

theorem dropWhile_append_all {p : Char → Bool} {a : List Char} (b : List Char)
    (h : ∀ x ∈ a, p x = true) : (a ++ b).dropWhile p = b.dropWhile p := by
  induction a with
  | nil => rfl
  | cons x a ih =>
    rw [List.cons_append, List.dropWhile_cons, if_pos (h x (List.mem_cons_self _ _)),
      ih (fun y hy => h y (List.mem_cons_of_mem _ hy))]

theorem takeWhile_cons_false {p : Char → Bool} {x : Char} {l : List Char}
    (h : p x = false) : (x :: l).takeWhile p = [] := by
  rw [List.takeWhile_cons, if_neg (by simp [h])]

theorem dropWhile_cons_false {p : Char → Bool} {x : Char} {l : List Char}
    (h : p x = false) : (x :: l).dropWhile p = x :: l := by
  rw [List.dropWhile_cons, if_neg (by simp [h])]

theorem normPathParts_foldl_no_dots (parts : List (List Char))
    (h : ∀ x ∈ parts, x ≠ ['.'] ∧ x ≠ ['.', '.']) (acc : List (List Char)) :
    parts.foldl
      (fun acc part =>
        if part = ['.'] then acc
        else if part = ['.', '.'] then acc.dropLast
        else acc ++ [part]) acc = acc ++ parts := by
  induction parts generalizing acc with
  | nil => simp
  | cons x parts ih =>
    obtain ⟨h1, h2⟩ := h x (List.mem_cons_self _ _)
    rw [List.foldl_cons, if_neg h1, if_neg h2,
      ih (fun y hy => h y (List.mem_cons_of_mem _ hy))]
    simp

theorem normPathParts_no_dots {parts : List (List Char)}
    (h : ∀ x ∈ parts, x ≠ ['.'] ∧ x ≠ ['.', '.']) : normPathParts parts = parts := by
  unfold normPathParts
  rw [normPathParts_foldl_no_dots parts h []]
  rfl

theorem splitOnChar_ne_nil (c : Char) (l : List Char) : splitOnChar c l ≠ [] := by
  cases l with
  | nil => simp [splitOnChar]
  | cons a l =>
    by_cases hac : a = c
    · simp [splitOnChar, hac]
    · rw [splitOnChar, if_neg hac]
      cases hsp : splitOnChar c l with
      | nil => simp
      | cons p ps => simp

theorem joinChar_splitOnChar (c : Char) (l : List Char) :
    joinChar c (splitOnChar c l) = l := by
  induction l with
  | nil => rfl
  | cons a l ih =>
    by_cases hac : a = c
    · subst hac
      rw [splitOnChar, if_pos rfl]
      cases hsp : splitOnChar a l with
      | nil => exact absurd hsp (splitOnChar_ne_nil a l)
      | cons p ps =>
        show [] ++ a :: joinChar a (p :: ps) = a :: l
        rw [← hsp, ih, List.nil_append]
    · rw [splitOnChar, if_neg hac]
      cases hsp : splitOnChar c l with
      | nil => exact absurd hsp (splitOnChar_ne_nil c l)
      | cons p ps =>
        cases ps with
        | nil =>
          show a :: p = a :: l
          have : joinChar c [p] = l := by rw [← hsp, ih]
          rw [← this]
          rfl
        | cons p2 ps2 =>
          show (a :: p) ++ c :: joinChar c (p2 :: ps2) = a :: l
          have : p ++ c :: joinChar c (p2 :: ps2) = l := by
            rw [show p ++ c :: joinChar c (p2 :: ps2) = joinChar c (p :: p2 :: ps2) from rfl,
              ← hsp, ih]
          rw [List.cons_append, this]

theorem lowerL_eq_self {l : List Char} (h : ∀ c ∈ l, c.toLower = c) : lowerL l = l := by
  show l.map Char.toLower = l
  induction l with
  | nil => rfl
  | cons a l ih =>
    rw [List.map_cons, h a (List.mem_cons_self _ _),
      ih (fun c hc => h c (List.mem_cons_of_mem _ hc))]

theorem removeUnsafe_eq_self {l : List Char}
    (h : ∀ c ∈ l, ¬(c = '\t' ∨ c = '\r' ∨ c = '\n')) : removeUnsafe l = l :=
  List.filter_eq_self.mpr (fun c hc => by simpa using h c hc)

theorem isPrefixOf_append_self (a b : List Char) : a.isPrefixOf (a ++ b) = true := by
  rw [List.isPrefixOf_iff_prefix]
  exact List.prefix_append _ _

/-! ### Character-class facts for canonical URLs -/

theorem hostChar_toNat {c : Char} (h : hostChar c = true) :
    (97 ≤ c.toNat ∧ c.toNat ≤ 122) ∨ (48 ≤ c.toNat ∧ c.toNat ≤ 57) ∨
      c.toNat = 46 ∨ c.toNat = 45 := by
  have h' := of_decide_eq_true h
  rcases h' with h' | h' | rfl | rfl
  · exact Or.inl h'
  · exact Or.inr (Or.inl h')
  · exact Or.inr (Or.inr (Or.inl (by decide)))
  · exact Or.inr (Or.inr (Or.inr (by decide)))

theorem hostChar_ne {c : Char} (h : hostChar c = true) (d : Char)
    (hd : ¬((97 ≤ d.toNat ∧ d.toNat ≤ 122) ∨ (48 ≤ d.toNat ∧ d.toNat ≤ 57) ∨
      d.toNat = 46 ∨ d.toNat = 45)) : c ≠ d :=
  fun hcd => hd (hcd ▸ hostChar_toNat h)

theorem hostChar_toLower {c : Char} (h : hostChar c = true) : c.toLower = c := by
  have ht := hostChar_toNat h
  have hn : ¬(c.toNat ≥ 65 ∧ c.toNat ≤ 90) := by omega
  show Char.toLower c = c
  unfold Char.toLower
  exact if_neg hn

theorem hostChar_not_space {c : Char} (h : hostChar c = true) : pyIsSpace c = false := by
  have ht := hostChar_toNat h
  simp only [pyIsSpace, decide_eq_false_iff_not]
  rintro (rfl | rfl | rfl | rfl | rfl | rfl) <;> revert ht <;> decide

theorem hostChar_netloc_ok {c : Char} (h : hostChar c = true) : notNetlocDelim c = true := by
  have ht := hostChar_toNat h
  simp only [notNetlocDelim, decide_eq_true_eq]
  rintro (rfl | rfl | rfl) <;> revert ht <;> decide

theorem pathChar_props {c : Char} (h : pathChar c = true) :
    c ≠ '?' ∧ c ≠ '#' ∧ c ≠ ';' ∧ c ≠ '"' ∧ c ≠ '\'' ∧ pyIsSpace c = false := by
  simp only [pathChar, decide_eq_true_eq] at h
  push_neg at h
  obtain ⟨h1, h2, h3, h4, h5, h6⟩ := h
  exact ⟨h1, h2, h3, h4, h5, by simpa using h6⟩

theorem queryChar_props {c : Char} (h : queryChar c = true) :
    c ≠ '#' ∧ c ≠ '"' ∧ c ≠ '\'' ∧ pyIsSpace c = false := by
  simp only [queryChar, decide_eq_true_eq] at h
  push_neg at h
  obtain ⟨h1, h2, h3, h4⟩ := h
  exact ⟨h1, h2, h3, by simpa using h4⟩

theorem not_space_not_unsafe {c : Char} (h : pyIsSpace c = false) :
    ¬(c = '\t' ∨ c = '\r' ∨ c = '\n') := by
  rintro (rfl | rfl | rfl) <;> exact absurd h (by decide)

theorem schemeChar_not_space {c : Char} (h : isSchemeChar c = true) :
    pyIsSpace c = false ∧ c ≠ '"' ∧ c ≠ '\'' := by
  refine ⟨?_, ?_, ?_⟩
  · by_contra hcon
    rw [Bool.not_eq_false] at hcon
    have h' := of_decide_eq_true (by simpa [pyIsSpace] using hcon :
      decide (c = ' ' ∨ c = '\t' ∨ c = '\n' ∨ c = '\r' ∨ c = '\x0b' ∨ c = '\x0c') = true)
    rcases h' with rfl | rfl | rfl | rfl | rfl | rfl <;> revert h <;> decide
  · rintro rfl; revert h; decide
  · rintro rfl; revert h; decide

theorem stripAll_of_stripWS_nil {l : List Char} (h : pyStripWS l = []) : stripAll l = [] := by
  unfold stripAll
  rw [h]
  rfl

/-- Unfolding of `crawlStep` on an empty queue. -/
theorem crawlStep_nil_eq (oracle : String → Option String)
    (extractF : String → String → List String) (flt : String → Bool) (d N : Nat)
    (s : WebCrawler.CrawlState) (hq : s.queue = []) :
    WebCrawler.crawlStep oracle extractF flt d N s = none := by
  rw [WebCrawler.crawlStep, hq]

/-- Unfolding of `crawlStep` on a non-empty queue. -/
theorem crawlStep_cons_eq (oracle : String → Option String)
    (extractF : String → String → List String) (flt : String → Bool) (d N : Nat)
    (s : WebCrawler.CrawlState) (url : String) (depth : Nat) (rest : List (String × Nat))
    (hq : s.queue = (url, depth) :: rest) :
    WebCrawler.crawlStep oracle extractF flt d N s =
      (if N ≤ s.processed then none
       else if url ∈ s.visited then some { s with queue := rest }
       else
         some ⟨rest ++ (if depth < d then
                 (((WebCrawler.crawl_page oracle extractF s.visited url).1.filter flt).map
                   (fun u => (u, depth + 1))) else []),
               (WebCrawler.crawl_page oracle extractF s.visited url).2,
               (WebCrawler.crawl_page oracle extractF s.visited url).1.foldl
                 (fun a u => if u ∈ a then a else a ++ [u]) s.allUrls,
               s.processed + 1⟩) := by
  rw [WebCrawler.crawlStep, hq]

/-- One step of the `crawl_deep` loop preserves the depth bound on queued
tasks. -/
theorem crawlStep_depth_inv (oracle : String → Option String)
    (extractF : String → String → List String) (flt : String → Bool) (d N : Nat)
    (s s' : WebCrawler.CrawlState)
    (hstep : WebCrawler.crawlStep oracle extractF flt d N s = some s')
    (hinv : ∀ t ∈ s.queue, t.2 ≤ d) : ∀ t ∈ s'.queue, t.2 ≤ d := by
  cases hq : s.queue with
  | nil => rw [crawlStep_nil_eq oracle extractF flt d N s hq] at hstep
           exact absurd hstep (by simp)
  | cons hd rest =>
    obtain ⟨url, depth⟩ := hd
    rw [crawlStep_cons_eq oracle extractF flt d N s url depth rest hq] at hstep
    by_cases hN : N ≤ s.processed
    · rw [if_pos hN] at hstep; exact absurd hstep (by simp)
    · rw [if_neg hN] at hstep
      by_cases hv : url ∈ s.visited
      · rw [if_pos hv] at hstep
        obtain rfl : { s with queue := rest } = s' := Option.some.inj hstep
        intro t ht
        exact hinv t (by rw [hq]; exact List.mem_cons_of_mem _ ht)
      · rw [if_neg hv] at hstep
        obtain rfl := Option.some.inj hstep
        intro t ht
        simp only [List.mem_append] at ht
        rcases ht with ht | ht
        · exact hinv t (by rw [hq]; exact List.mem_cons_of_mem _ ht)
        · by_cases hdep : depth < d
          · rw [if_pos hdep] at ht
            obtain ⟨u, _, rfl⟩ := List.mem_map.mp ht
            exact hdep
          · rw [if_neg hdep] at ht
            exact absurd ht (by simp)

/-- The depth bound is an invariant of any number of loop iterations. -/
theorem crawlIter_depth_inv (oracle : String → Option String)
    (extractF : String → String → List String) (flt : String → Bool) (d N : Nat)
    (n : Nat) (s : WebCrawler.CrawlState) (hinv : ∀ t ∈ s.queue, t.2 ≤ d) :
    ∀ t ∈ (WebCrawler.crawlIter oracle extractF flt d N n s).queue, t.2 ≤ d := by
  induction n generalizing s with
  | zero => exact hinv
  | succ n ih =>
    rw [WebCrawler.crawlIter]
    cases hstep : WebCrawler.crawlStep oracle extractF flt d N s with
    | none => exact hinv
    | some s' => exact ih s' (crawlStep_depth_inv oracle extractF flt d N s s' hstep hinv)

/-- One step of the loop keeps the processed counter within the page
budget. -/
theorem crawlStep_processed_le (oracle : String → Option String)
    (extractF : String → String → List String) (flt : String → Bool) (d N : Nat)
    (s s' : WebCrawler.CrawlState)
    (hstep : WebCrawler.crawlStep oracle extractF flt d N s = some s')
    (hle : s.processed ≤ N) : s'.processed ≤ N := by
  cases hq : s.queue with
  | nil => rw [crawlStep_nil_eq oracle extractF flt d N s hq] at hstep
           exact absurd hstep (by simp)
  | cons hd rest =>
    obtain ⟨url, depth⟩ := hd
    rw [crawlStep_cons_eq oracle extractF flt d N s url depth rest hq] at hstep
    by_cases hN : N ≤ s.processed
    · rw [if_pos hN] at hstep; exact absurd hstep (by simp)
    · rw [if_neg hN] at hstep
      by_cases hv : url ∈ s.visited
      · rw [if_pos hv] at hstep
        obtain rfl := Option.some.inj hstep
        exact hle
      · rw [if_neg hv] at hstep
        obtain rfl := Option.some.inj hstep
        show s.processed + 1 ≤ N
        omega

/-- The loop guard: a step is refused exactly when the queue is empty or the
page budget is spent. -/
theorem crawlStep_none_iff (oracle : String → Option String)
    (extractF : String → String → List String) (flt : String → Bool) (d N : Nat)
    (s : WebCrawler.CrawlState) :
    WebCrawler.crawlStep oracle extractF flt d N s = none ↔
      s.queue = [] ∨ N ≤ s.processed := by
  cases hq : s.queue with
  | nil => simp [crawlStep_nil_eq oracle extractF flt d N s hq, hq]
  | cons hd rest =>
    obtain ⟨url, depth⟩ := hd
    rw [crawlStep_cons_eq oracle extractF flt d N s url depth rest hq]
    by_cases hN : N ≤ s.processed
    · simp [hN]
    · simp only [if_neg hN]
      constructor
      · intro h
        by_cases hv : url ∈ s.visited
        · rw [if_pos hv] at h; exact absurd h (by simp)
        · rw [if_neg hv] at h; exact absurd h (by simp)
      · rintro (h | h)
        · exact absurd h (by simp)
        · exact absurd h hN

/-- A successful step either discards a visited task (shrinking the queue) or
processes a page (incrementing the counter); both need budget headroom. -/
theorem crawlStep_cases (oracle : String → Option String)
    (extractF : String → String → List String) (flt : String → Bool) (d N : Nat)
    (s s' : WebCrawler.CrawlState)
    (hstep : WebCrawler.crawlStep oracle extractF flt d N s = some s') :
    (s'.processed = s.processed ∧ s'.queue.length < s.queue.length ∧ s.processed < N) ∨
    (s'.processed = s.processed + 1 ∧ s.processed < N) := by
  cases hq : s.queue with
  | nil => rw [crawlStep_nil_eq oracle extractF flt d N s hq] at hstep
           exact absurd hstep (by simp)
  | cons hd rest =>
    obtain ⟨url, depth⟩ := hd
    rw [crawlStep_cons_eq oracle extractF flt d N s url depth rest hq] at hstep
    by_cases hN : N ≤ s.processed
    · rw [if_pos hN] at hstep; exact absurd hstep (by simp)
    · rw [if_neg hN] at hstep
      by_cases hv : url ∈ s.visited
      · rw [if_pos hv] at hstep
        obtain rfl := Option.some.inj hstep
        exact Or.inl ⟨rfl, by simp, by omega⟩
      · rw [if_neg hv] at hstep
        obtain rfl := Option.some.inj hstep
        exact Or.inr ⟨rfl, by omega⟩

/-- The loop always reaches a state where the guard fails (double induction
on the remaining budget and the queue length). -/
theorem crawl_terminates_aux (oracle : String → Option String)
    (extractF : String → String → List String) (flt : String → Bool) (d N : Nat) :
    ∀ (k q : Nat) (s : WebCrawler.CrawlState), N - s.processed ≤ k →
      s.queue.length ≤ q →
      ∃ n, WebCrawler.crawlStep oracle extractF flt d N
        (WebCrawler.crawlIter oracle extractF flt d N n s) = none := by
  intro k
  induction k with
  | zero =>
    intro q s hk _
    exact ⟨0, (crawlStep_none_iff oracle extractF flt d N s).mpr (Or.inr (by omega))⟩
  | succ k ihk =>
    intro q
    induction q with
    | zero =>
      intro s _ hq
      exact ⟨0, (crawlStep_none_iff oracle extractF flt d N s).mpr
        (Or.inl (List.length_eq_zero.mp (by omega)))⟩
    | succ q ihq =>
      intro s hk hq
      cases hstep : WebCrawler.crawlStep oracle extractF flt d N s with
      | none => exact ⟨0, hstep⟩
      | some s' =>
        rcases crawlStep_cases oracle extractF flt d N s s' hstep with
          ⟨hp, hlen, _⟩ | ⟨hp, hN⟩
        · obtain ⟨n, hn⟩ := ihq s' (by omega) (by omega)
          exact ⟨n + 1, by rw [WebCrawler.crawlIter, hstep]; exact hn⟩
        · obtain ⟨n, hn⟩ := ihk s'.queue.length s' (by omega) (le_refl _)
          exact ⟨n + 1, by rw [WebCrawler.crawlIter, hstep]; exact hn⟩

/-! ### Parsing a canonical URL recovers its components -/

theorem urlsplitE_canonical (S H P' Q : List Char)
    (hScolon : ':' ∉ S) (hSne : S ≠ []) (hSchars : S.all isSchemeChar = true)
    (hSlow : lowerL S = S)
    (hH : ∀ c ∈ H, hostChar c = true)
    (hPc : ∀ c ∈ P', pathChar c = true)
    (hQc : ∀ c ∈ Q, queryChar c = true) :
    urlsplitE (S ++ ':' :: '/' :: '/' ::
        (H ++ ('/' :: P') ++ (if Q = [] then [] else '?' :: Q))) [] =
      some ⟨S, H, '/' :: P', Q, []⟩ := by
  have hQP : ∀ c ∈ (if Q = [] then [] else '?' :: Q), c = '?' ∨ queryChar c = true := by
    intro c hc
    by_cases hQ : Q = []
    · rw [if_pos hQ] at hc; exact absurd hc (List.not_mem_nil c)
    · rw [if_neg hQ] at hc
      rcases List.mem_cons.mp hc with rfl | hc
      · exact Or.inl rfl
      · exact Or.inr (hQc c hc)
  have hclean : removeUnsafe (S ++ ':' :: '/' :: '/' ::
      (H ++ ('/' :: P') ++ (if Q = [] then [] else '?' :: Q))) =
      S ++ ':' :: '/' :: '/' :: (H ++ ('/' :: P') ++ (if Q = [] then [] else '?' :: Q)) := by
    apply removeUnsafe_eq_self
    intro c hc
    simp only [List.mem_append, List.mem_cons] at hc
    rcases hc with hc | rfl | rfl | rfl | (hc | rfl | hc) | hc
    · exact not_space_not_unsafe (schemeChar_not_space (List.all_eq_true.mp hSchars c hc)).1
    · decide
    · decide
    · decide
    · exact not_space_not_unsafe (hostChar_not_space (hH c hc))
    · decide
    · exact not_space_not_unsafe (pathChar_props (hPc c hc)).2.2.2.2.2
    · rcases hQP c hc with rfl | hq
      · decide
      · exact not_space_not_unsafe (queryChar_props hq).2.2.2
  have hnodelimH : ∀ c ∈ H, notNetlocDelim c = true := fun c hc => hostChar_netloc_ok (hH c hc)
  have hlb : '[' ∉ H := fun hm => (hostChar_ne (hH _ hm) '[' (by decide)) rfl
  have hrb : ']' ∉ H := fun hm => (hostChar_ne (hH _ hm) ']' (by decide)) rfl
  have hnoP : '#' ∉ ('/' :: P') ∧ '?' ∉ ('/' :: P') ∧ ';' ∉ ('/' :: P') := by
    refine ⟨?_, ?_, ?_⟩ <;>
      · intro hm
        rcases List.mem_cons.mp hm with h | h
        · exact absurd h (by decide)
        · first
          | exact (pathChar_props (hPc _ h)).2.1 rfl
          | exact (pathChar_props (hPc _ h)).1 rfl
          | exact (pathChar_props (hPc _ h)).2.2.1 rfl
  have hfrag : splitFirst '#'
      (('/' :: P') ++ (if Q = [] then [] else '?' :: Q)) = none := by
    apply splitFirst_not_mem
    intro hm
    rcases List.mem_append.mp hm with hm | hm
    · exact hnoP.1 hm
    · rcases hQP _ hm with h | h
      · exact absurd h (by decide)
      · exact (queryChar_props h).1 rfl
  unfold urlsplitE
  rw [hclean]
  dsimp only
  rw [splitFirst_append hScolon]
  simp only [if_pos (show S ≠ [] ∧ S.all isSchemeChar = true from ⟨hSne, hSchars⟩), hSlow]
  rw [if_pos (show (('/' :: '/' :: (H ++ ('/' :: P') ++
      (if Q = [] then [] else '?' :: Q))).take 2 = ['/', '/']) from rfl)]
  simp only [List.drop_succ_cons, List.drop_zero]
  rw [List.append_assoc H ('/' :: P') _]
  rw [takeWhile_append_all _ hnodelimH, dropWhile_append_all _ hnodelimH]
  rw [List.cons_append]
  rw [takeWhile_cons_false (show notNetlocDelim '/' = false from by decide),
    dropWhile_cons_false (show notNetlocDelim '/' = false from by decide),
    List.append_nil]
  rw [← List.cons_append]
  rw [if_neg (show ¬(('[' ∈ H) ≠ (']' ∈ H)) from fun hne => hne (eq_iff_iff.mpr
    ⟨fun hm => absurd hm hlb, fun hm => absurd hm hrb⟩))]
  rw [hfrag]
  by_cases hQ : Q = []
  · subst hQ
    rw [if_pos rfl, List.append_nil]
    rw [splitFirst_not_mem hnoP.2.1]
  · rw [if_neg hQ]
    rw [splitFirst_append hnoP.2.1]

theorem urlparseE_canonical (S H P' Q : List Char)
    (hScolon : ':' ∉ S) (hSne : S ≠ []) (hSchars : S.all isSchemeChar = true)
    (hSlow : lowerL S = S)
    (hH : ∀ c ∈ H, hostChar c = true)
    (hPc : ∀ c ∈ P', pathChar c = true)
    (hQc : ∀ c ∈ Q, queryChar c = true) :
    urlparseE (S ++ ':' :: '/' :: '/' ::
        (H ++ ('/' :: P') ++ (if Q = [] then [] else '?' :: Q))) [] =
      some ⟨S, H, '/' :: P', [], Q, []⟩ := by
  have hsemi : ';' ∉ ('/' :: P') := by
    intro hm
    rcases List.mem_cons.mp hm with h | h
    · exact absurd h (by decide)
    · exact (pathChar_props (hPc _ h)).2.2.1 rfl
  rw [urlparseE, urlsplitE_canonical S H P' Q hScolon hSne hSchars hSlow hH hPc hQc]
  simp only [Option.map_some']
  rw [if_neg hsemi]

theorem normalizeComponents_canonical (S H P' Q : List Char)
    (hScolon : ':' ∉ S) (hSne : S ≠ []) (hSchars : S.all isSchemeChar = true)
    (hSlow : lowerL S = S)
    (hH1 : H ≠ []) (hH : ∀ c ∈ H, hostChar c = true)
    (hPc : ∀ c ∈ P', pathChar c = true)
    (hPdots : ∀ seg ∈ splitOnChar '/' ('/' :: P'), seg ≠ ['.'] ∧ seg ≠ ['.', '.'])
    (hQc : ∀ c ∈ Q, queryChar c = true) :
    URLNormalizer.normalizeComponentsL (S ++ ':' :: '/' :: '/' ::
        (H ++ ('/' :: P') ++ (if Q = [] then [] else '?' :: Q))) =
      S ++ ':' :: '/' :: '/' :: (H ++ ('/' :: P') ++ (if Q = [] then [] else '?' :: Q)) := by
  rw [URLNormalizer.normalizeComponentsL,
    urlparseE_canonical S H P' Q hScolon hSne hSchars hSlow hH hPc hQc]
  try dsimp only
  rw [hSlow, lowerL_eq_self (fun c hc => hostChar_toLower (hH c hc))]
  rw [if_neg (show ¬(':' ∈ H) from fun hm => (hostChar_ne (hH _ hm) ':' (by decide)) rfl)]
  rw [if_neg (show ¬('/' :: P' = []) from by simp)]
  rw [normPathParts_no_dots hPdots, joinChar_splitOnChar]
  rw [urlunparseL, if_neg (show ¬(([] : List Char) ≠ []) from by simp)]
  rw [urlunsplitL]
  try dsimp only
  rw [if_pos (Or.inl hH1)]
  rw [if_neg (show ¬('/' :: P' ≠ [] ∧ ('/' :: P').take 1 ≠ ['/']) from by simp)]
  rw [if_pos hSne]
  by_cases hQ : Q = []
  · subst hQ
    rw [if_neg (show ¬(([] : List Char) ≠ []) from by simp),
      if_neg (show ¬(([] : List Char) ≠ []) from by simp)]
    simp
  · rw [if_pos (show Q ≠ [] from hQ), if_neg hQ,
      if_neg (show ¬(([] : List Char) ≠ []) from by simp)]
    simp [List.append_assoc]

/-! ## Claim theorems -/

/-- C7: every task ever appended to the deep-crawl queue has depth at most
the (effective) maximum depth: starting from the seed task at depth 0, every
queue reachable in any number of loop iterations only holds tasks of depth
at most `effectiveMaxDepth md`; in particular a crawl with `maxDepth = 1`
never enqueues a task with depth greater than 1. -/
theorem crawl_deep_depth_bound (oracle : String → Option String)
    (extractF : String → String → List String) (flt : String → Bool)
    (md : Option Nat) (N : Nat) (start : String) (visited0 : List String) (n : Nat) :
    ∀ t ∈ (WebCrawler.crawlIter oracle extractF flt (WebCrawler.effectiveMaxDepth md) N n
        (WebCrawler.initCrawlState start visited0)).queue,
      t.2 ≤ WebCrawler.effectiveMaxDepth md := by
  apply crawlIter_depth_inv
  intro t ht
  simp only [WebCrawler.initCrawlState, List.mem_singleton] at ht
  subst ht
  exact Nat.zero_le _

/-- Witness for C7: a crawl with `maxDepth = 1` that discovers a link
enqueues it at depth 1, and the bound holds there. -/
theorem crawl_deep_depth_bound_witness :
    (("http://a/b", 1) ∈ (WebCrawler.crawlIter (fun _ => some "c")
        (fun _ _ => ["http://a/b"]) (fun _ => true)
        (WebCrawler.effectiveMaxDepth (some 1)) 5 1
        (WebCrawler.initCrawlState "http://s/" [])).queue) ∧
    (("http://a/b", 1) : String × Nat).2 ≤ WebCrawler.effectiveMaxDepth (some 1) :=
  ⟨by decide, crawl_deep_depth_bound (fun _ => some "c") (fun _ _ => ["http://a/b"])
    (fun _ => true) (some 1) 5 "http://s/" [] 1 ("http://a/b", 1) (by decide)⟩

/-- C8: the page budget is respected: the processed counter never exceeds
`maxPages` in any reachable state, the loop guard fails exactly when the
queue is empty or the budget is spent, and from any state the loop reaches a
state where the guard fails (termination). -/
theorem crawl_deep_page_budget (oracle : String → Option String)
    (extractF : String → String → List String) (flt : String → Bool)
    (d N : Nat) (start : String) (visited0 : List String) :
    (∀ n, (WebCrawler.crawlIter oracle extractF flt d N n
        (WebCrawler.initCrawlState start visited0)).processed ≤ N) ∧
    (∀ s, WebCrawler.crawlStep oracle extractF flt d N s = none ↔
        s.queue = [] ∨ N ≤ s.processed) ∧
    (∀ s, ∃ n, WebCrawler.crawlStep oracle extractF flt d N
        (WebCrawler.crawlIter oracle extractF flt d N n s) = none) := by
  refine ⟨?_, crawlStep_none_iff oracle extractF flt d N, ?_⟩
  · intro n
    have : ∀ (m : Nat) (s : WebCrawler.CrawlState), s.processed ≤ N →
        (WebCrawler.crawlIter oracle extractF flt d N m s).processed ≤ N := by
      intro m
      induction m with
      | zero => exact fun s h => h
      | succ m ih =>
        intro s h
        rw [WebCrawler.crawlIter]
        cases hstep : WebCrawler.crawlStep oracle extractF flt d N s with
        | none => exact h
        | some s' => exact ih s' (crawlStep_processed_le oracle extractF flt d N s s' hstep h)
    exact this n _ (Nat.zero_le _)
  · intro s
    exact crawl_terminates_aux oracle extractF flt d N (N - s.processed) s.queue.length s
      (le_refl _) (le_refl _)

/-- C9 counterexample: the claim says a dequeued unvisited URL is in the
visited set once its fetch completes, regardless of success or failure.  On
a failing fetch the code does not mark the URL: the step completes with an
unchanged (empty) visited set. -/
theorem fetch_failure_not_marked_visited :
    (WebCrawler.crawlStep (fun _ => none) (fun _ _ => []) (fun _ => true) 3 5
        (WebCrawler.initCrawlState "http://a.com/" [])).map WebCrawler.CrawlState.visited =
      some [] ∧ "http://a.com/" ∉ ([] : List String) :=
  ⟨rfl, by simp⟩

/-- C9 amended: when the deep-crawl loop dequeues a task whose URL is not yet
visited (with budget left), the URL is in the visited set after the fetch
step if and only if the fetch succeeded: on success it is marked (and so
never fetched again); on failure the visited set is unchanged. -/
theorem crawl_visited_marked_iff_fetch_success (oracle : String → Option String)
    (extractF : String → String → List String) (flt : String → Bool) (d N : Nat)
    (s : WebCrawler.CrawlState) (url : String) (depth : Nat) (rest : List (String × Nat))
    (hq : s.queue = (url, depth) :: rest) (hN : s.processed < N) (hv : url ∉ s.visited) :
    (WebCrawler.crawlStep oracle extractF flt d N s).map WebCrawler.CrawlState.visited =
      some (if (oracle url).isSome then url :: s.visited else s.visited) := by
  rw [crawlStep_cons_eq oracle extractF flt d N s url depth rest hq,
    if_neg (by omega : ¬ N ≤ s.processed), if_neg hv]
  cases horacle : oracle url with
  | none => simp [WebCrawler.crawl_page, WebCrawler.fetch, hv, horacle]
  | some content => simp [WebCrawler.crawl_page, WebCrawler.fetch, hv, horacle]

/-- Witness for C9 (amended): on a successful fetch the dequeued URL is
marked visited. -/
theorem crawl_visited_marked_iff_fetch_success_witness :
    (WebCrawler.crawlStep (fun _ => some "body") (fun _ _ => []) (fun _ => true) 3 5
        (WebCrawler.initCrawlState "http://a.com/" [])).map WebCrawler.CrawlState.visited =
      some (if ((fun _ => some "body") "http://a.com/" : Option String).isSome then
        "http://a.com/" :: ([] : List String) else []) :=
  crawl_visited_marked_iff_fetch_success (fun _ => some "body") (fun _ _ => [])
    (fun _ => true) 3 5 (WebCrawler.initCrawlState "http://a.com/" []) "http://a.com/" 0 []
    rfl (by decide) (List.not_mem_nil _)

/-- C4: the default port is stripped exactly for the matching scheme: `:80`
is removed for `http`, `:443` for `https`, and a non-default port such as
`:8080` is preserved. -/
theorem normalize_default_ports :
    URLNormalizer.normalize "http://example.com:80/a" none = "http://example.com/a" ∧
    URLNormalizer.normalize "https://example.com:443/a" none = "https://example.com/a" ∧
    URLNormalizer.normalize "http://example.com:8080/a" none = "http://example.com:8080/a" :=
  ⟨rfl, rfl, rfl⟩

/-- C5: a filter targeting `https://example.com` (base domain `example.com`)
with subdomain inclusion and no user include patterns admits
`https://api.example.com/x` and rejects `https://notexample.com/x`. -/
theorem filter_subdomain_scope :
    (mkURLFilter (some "https://example.com") true [] []).filter
      "https://api.example.com/x" = some true ∧
    (mkURLFilter (some "https://example.com") true [] []).filter
      "https://notexample.com/x" = some false :=
  ⟨rfl, rfl⟩

/-- C10: `SubdomainExtractor.extract_from_urls` keeps any reassembled host
that merely string-ends with the base domain: for base domain `example.com`
the unrelated host `notexample.com` is returned in the subdomain set. -/
theorem subdomain_suffix_overmatch :
    "notexample.com" ∈ (mkSubdomainExtractor "https://example.com").extract_from_urls
      ["https://notexample.com/x"] := by
  decide

/-- C2 counterexample: the claim says a bare fragment is rejected for every
choice of base, including a supplied base URL; but with a base the code
resolves the fragment against it and returns the normalized base. -/
theorem bare_fragment_with_base_accepted :
    URLNormalizer.normalize "#section" (some "http://example.com/page") =
      "http://example.com/page" ∧
    URLNormalizer.normalize "#section" (some "http://example.com/page") ≠ "" := by
  exact ⟨rfl, by decide⟩

/-- C3 amended: normalization is not idempotent in general, but it is
idempotent on accepted results in canonical form `scheme://host/path?query`:
scheme `http`, `https` or `ftp`; non-empty host of lowercase letters, digits,
dots and hyphens; non-empty slash-rooted path free of `.` and `..` segments
and of the characters the normalizer splits on or strips; query free of
fragment delimiters, quotes and whitespace.  Re-normalizing such an accepted
result changes nothing. -/
theorem normalize_idempotent_on_canonical (u : String) (b : Option String)
    (s h p q : String)
    (hs : s = "http" ∨ s = "https" ∨ s = "ftp")
    (hh1 : h.data ≠ []) (hh : ∀ c ∈ h.data, hostChar c = true)
    (hp1 : ∃ p', p.data = '/' :: p')
    (hpc : ∀ c ∈ p.data, pathChar c = true)
    (hpdots : ∀ seg ∈ splitOnChar '/' p.data, seg ≠ ['.'] ∧ seg ≠ ['.', '.'])
    (hqc : ∀ c ∈ q.data, queryChar c = true)
    (heq : URLNormalizer.normalize u b = canonURL s h p q) :
    URLNormalizer.normalize (URLNormalizer.normalize u b) none =
      URLNormalizer.normalize u b := by
  rw [heq]
  obtain ⟨P', hP⟩ := hp1
  have hSfacts : (':' ∉ s.data) ∧ s.data ≠ [] ∧ s.data.all isSchemeChar = true ∧
      lowerL s.data = s.data := by
    rcases hs with rfl | rfl | rfl <;> exact ⟨by decide, by decide, by decide, by decide⟩
  obtain ⟨hScolon, hSne, hSchars, hSlow⟩ := hSfacts
  have hgood : ∀ c ∈ (s.data ++ ':' :: '/' :: '/' ::
      (h.data ++ p.data ++ (if q.data = [] then [] else '?' :: q.data))),
      pyIsSpace c = false ∧ c ≠ '"' ∧ c ≠ '\'' := by
    intro c hc
    simp only [List.mem_append, List.mem_cons] at hc
    rcases hc with hc | rfl | rfl | rfl | (hc | hc) | hc
    · exact schemeChar_not_space (List.all_eq_true.mp hSchars c hc)
    · exact ⟨by decide, by decide, by decide⟩
    · exact ⟨by decide, by decide, by decide⟩
    · exact ⟨by decide, by decide, by decide⟩
    · exact ⟨hostChar_not_space (hh c hc), hostChar_ne (hh c hc) '"' (by decide),
        hostChar_ne (hh c hc) '\'' (by decide)⟩
    · have hp' := pathChar_props (hpc c hc)
      exact ⟨hp'.2.2.2.2.2, hp'.2.2.2.1, hp'.2.2.2.2.1⟩
    · by_cases hQ : q.data = []
      · rw [if_pos hQ] at hc; exact absurd hc (List.not_mem_nil c)
      · rw [if_neg hQ] at hc
        rcases List.mem_cons.mp hc with rfl | hc
        · exact ⟨by decide, by decide, by decide⟩
        · have hq' := queryChar_props (hqc c hc)
          exact ⟨hq'.2.2.2, hq'.2.1, hq'.2.2.1⟩
  have hstrip : stripAll (s.data ++ ':' :: '/' :: '/' ::
      (h.data ++ p.data ++ (if q.data = [] then [] else '?' :: q.data))) =
      s.data ++ ':' :: '/' :: '/' ::
      (h.data ++ p.data ++ (if q.data = [] then [] else '?' :: q.data)) :=
    stripAll_eq_self (fun c hc => (hgood c hc).1) (fun c hc => (hgood c hc).2.1)
      (fun c hc => (hgood c hc).2.2)
  have hnn : (s.data ++ ':' :: '/' :: '/' ::
      (h.data ++ p.data ++ (if q.data = [] then [] else '?' :: q.data))) ≠ [] := by
    simp
  have hne2 : ¬((s.data ++ ':' :: '/' :: '/' ::
      (h.data ++ p.data ++ (if q.data = [] then [] else '?' :: q.data))) = [] ∨
      pyStripWS (s.data ++ ':' :: '/' :: '/' ::
      (h.data ++ p.data ++ (if q.data = [] then [] else '?' :: q.data))) = []) := by
    refine not_or.mpr ⟨hnn, ?_⟩
    rw [show pyStripWS (s.data ++ ':' :: '/' :: '/' ::
      (h.data ++ p.data ++ (if q.data = [] then [] else '?' :: q.data))) =
      (s.data ++ ':' :: '/' :: '/' ::
      (h.data ++ p.data ++ (if q.data = [] then [] else '?' :: q.data))) from
      pyStripWhen_eq_self (fun c hc => (hgood c hc).1)]
    exact hnn
  have hblack : black_keywords.any (fun kw => kw.isPrefixOf (lowerL
      (s.data ++ ':' :: '/' :: '/' ::
      (h.data ++ p.data ++ (if q.data = [] then [] else '?' :: q.data))))) = false := by
    rcases hs with rfl | rfl | rfl <;> rfl
  have habs : URLNormalizer.isAbsolutePrefixed (s.data ++ ':' :: '/' :: '/' ::
      (h.data ++ p.data ++ (if q.data = [] then [] else '?' :: q.data))) = true := by
    unfold URLNormalizer.isAbsolutePrefixed
    rcases hs with rfl | rfl | rfl
    · rw [show ("http".data ++ ':' :: '/' :: '/' ::
        (h.data ++ p.data ++ (if q.data = [] then [] else '?' :: q.data))) =
        "http://".data ++ (h.data ++ p.data ++ (if q.data = [] then [] else '?' :: q.data))
        from by rfl, isPrefixOf_append_self]
      simp
    · rw [show ("https".data ++ ':' :: '/' :: '/' ::
        (h.data ++ p.data ++ (if q.data = [] then [] else '?' :: q.data))) =
        "https://".data ++ (h.data ++ p.data ++ (if q.data = [] then [] else '?' :: q.data))
        from by rfl, isPrefixOf_append_self]
      simp
    · rw [show ("ftp".data ++ ':' :: '/' :: '/' ::
        (h.data ++ p.data ++ (if q.data = [] then [] else '?' :: q.data))) =
        "ftp://".data ++ (h.data ++ p.data ++ (if q.data = [] then [] else '?' :: q.data))
        from by rfl, isPrefixOf_append_self]
      simp
  have hmain : URLNormalizer.normalizeL (s.data ++ ':' :: '/' :: '/' ::
      (h.data ++ p.data ++ (if q.data = [] then [] else '?' :: q.data))) none =
      s.data ++ ':' :: '/' :: '/' ::
      (h.data ++ p.data ++ (if q.data = [] then [] else '?' :: q.data)) := by
    rw [URLNormalizer.normalizeL, if_neg hne2]
    try dsimp only
    rw [hstrip]
    simp only [hblack, Bool.false_eq_true, if_false]
    simp only [habs, if_true]
    rw [hP]
    exact normalizeComponents_canonical s.data h.data P' q.data hScolon hSne hSchars hSlow
      hh1 hh (fun c hc => hpc c (by rw [hP]; exact List.mem_cons_of_mem _ hc))
      (hP ▸ hpdots) hqc
  show (⟨URLNormalizer.normalizeL (s.data ++ ':' :: '/' :: '/' ::
      (h.data ++ p.data ++ (if q.data = [] then [] else '?' :: q.data))) none⟩ : String) =
    canonURL s h p q
  rw [hmain]
  rfl

/-- Witness for C3 (amended): a canonical URL is accepted and re-normalizes
to itself. -/
theorem normalize_idempotent_on_canonical_witness :
    URLNormalizer.normalize
        (URLNormalizer.normalize "https://example.com/a/b?x=1&y=2" none) none =
      URLNormalizer.normalize "https://example.com/a/b?x=1&y=2" none :=
  normalize_idempotent_on_canonical "https://example.com/a/b?x=1&y=2" none
    "https" "example.com" "/a/b" "x=1&y=2"
    (Or.inr (Or.inl rfl)) (by decide) (by decide)
    ⟨"a/b".data, by decide⟩ (by decide) (by decide) (by decide) rfl

/-- C3 counterexample: the claim says every accepted result is a fixed point
of `normalize`; but the accepted result of `http://example.com/..` is
`http://example.com`, which re-normalizes to `http://example.com/`. -/
theorem normalize_not_idempotent :
    URLNormalizer.normalize "http://example.com/.." none = "http://example.com" ∧
    URLNormalizer.normalize "http://example.com" none = "http://example.com/" ∧
    ("http://example.com/" : String) ≠ "http://example.com" := by
  exact ⟨rfl, rfl, by decide⟩

/-- C1: a URL that, after trimming whitespace and surrounding quotes, starts
(case-insensitively) with one of the blacklisted schemes `javascript:`,
`mailto:`, `tel:`, `data:`, `blob:`, `about:` normalizes to the empty
(rejected) result for every base, and the filter rejects that result, for
every filter configuration — so such strings never appear in an admitted
result. -/
theorem blacklist_never_admitted (u : String) (b : Option String) (f : URLFilter)
    (h : black_keywords.any (fun kw => kw.isPrefixOf (lowerL (stripAll u.data))) = true) :
    URLNormalizer.normalize u b = "" ∧
    f.filter (URLNormalizer.normalize u b) = some false := by
  have hsw : pyStripWS u.data ≠ [] := by
    intro hz
    rw [stripAll_of_stripWS_nil hz] at h
    exact absurd h (by decide)
  have hne : ¬(u.data = [] ∨ pyStripWS u.data = []) := by
    rintro (h1 | h2)
    · exact hsw (by rw [h1]; rfl)
    · exact hsw h2
  have hnorm : URLNormalizer.normalize u b = "" := by
    show (⟨URLNormalizer.normalizeL u.data (b.map String.data)⟩ : String) = ""
    rw [URLNormalizer.normalizeL, if_neg hne]
    simp only [h, if_true]
  refine ⟨hnorm, ?_⟩
  rw [hnorm]
  rw [URLFilter.filter, if_pos (Or.inl rfl)]

/-- Witness for C1 at the spec's own example `javascript:void(0)`. -/
theorem blacklist_never_admitted_witness :
    URLNormalizer.normalize "javascript:void(0)" none = "" ∧
    (mkURLFilter (some "https://example.com") true [] []).filter
      (URLNormalizer.normalize "javascript:void(0)" none) = some false :=
  blacklist_never_admitted "javascript:void(0)" none
    (mkURLFilter (some "https://example.com") true [] []) rfl

/-- C2 amended: a bare fragment (after trimming, the string starts with `#`)
is rejected only when no base URL is supplied (`base` absent or empty); with
a base URL the fragment resolves against the base and the normalized base is
returned. -/
theorem bare_fragment_rejected_amended :
    (∀ (u : String) (b : Option String), (stripAll u.data).head? = some '#' →
        (b = none ∨ b = some "") → URLNormalizer.normalize u b = "") ∧
    URLNormalizer.normalize "#section" (some "http://example.com/page") =
      "http://example.com/page" := by
  refine ⟨?_, rfl⟩
  intro u b hhead hb
  have hsw : pyStripWS u.data ≠ [] := by
    intro hz
    rw [stripAll_of_stripWS_nil hz] at hhead
    exact absurd hhead (by simp)
  have hne : ¬(u.data = [] ∨ pyStripWS u.data = []) := by
    rintro (h1 | h2)
    · exact hsw (by rw [h1]; rfl)
    · exact hsw h2
  obtain ⟨t, ht⟩ : ∃ t, stripAll u.data = '#' :: t := by
    cases hsa : stripAll u.data with
    | nil => rw [hsa] at hhead; exact absurd hhead (by simp)
    | cons c t =>
      rw [hsa] at hhead
      simp only [List.head?_cons, Option.some.injEq] at hhead
      exact ⟨t, by rw [hhead]⟩
  have hblack : black_keywords.any
      (fun kw => kw.isPrefixOf (lowerL (stripAll u.data))) = false := by
    rw [ht]; rfl
  have habs : URLNormalizer.isAbsolutePrefixed (stripAll u.data) = false := by
    rw [ht]; rfl
  rcases hb with rfl | rfl
  · show (⟨URLNormalizer.normalizeL u.data ((none : Option String).map String.data)⟩ :
      String) = ""
    rw [URLNormalizer.normalizeL, if_neg hne]
    simp only [hblack, Bool.false_eq_true, if_false, habs]
    rfl
  · show (⟨URLNormalizer.normalizeL u.data ((some "").map String.data)⟩ : String) = ""
    rw [URLNormalizer.normalizeL, if_neg hne]
    simp only [hblack, Bool.false_eq_true, if_false, habs]
    rfl

/-- Witness for C2 (amended): a bare fragment with no base is rejected. -/
theorem bare_fragment_rejected_amended_witness :
    URLNormalizer.normalize "#top" none = "" :=
  bare_fragment_rejected_amended.1 "#top" none rfl (Or.inl rfl)

/-- C6 counterexample: the claim says each URL lands in exactly one of the
six buckets; but a static asset on the target host is appended to both the
`static` and the `internal` bucket. -/
theorem categorize_double_bucket :
    (mkURLFilter (some "https://example.com") true [] []).categorize_urls
      ["https://example.com/a.js"] =
    some ⟨["https://example.com/a.js"], [], [], [], [], ["https://example.com/a.js"]⟩ :=
  rfl

/-- C6 amended: with a configured (truthy) target domain, `categorize_urls`
places each URL in exactly one host-based bucket (`internal`, `subdomains`,
`external`) and in at most one type-based bucket (`files`, `apis`,
`static`); a URL can therefore appear in two buckets (one of each kind),
not exactly one of the six. -/
theorem categorize_buckets_amended (f : URLFilter) (url : String) (c : Categories)
    (hd : f.domain ≠ none ∧ f.domain ≠ some "")
    (hc : f.categorize_urls [url] = some c) :
    c.internal.length + c.subdomains.length + c.external.length = 1 ∧
    c.files.length + c.apis.length + c.static.length ≤ 1 := by
  obtain ⟨hd1, hd2⟩ := hd
  rcases hdm : f.domain with _ | d
  · exact absurd hdm hd1
  · have hdne : ¬(d = "") := fun h => hd2 (by rw [hdm, h])
    simp only [URLFilter.categorize_urls, hdm, if_neg hdne, List.foldl_cons,
      List.foldl_nil, Option.some_bind] at hc
    simp only [URLFilter.categorizeOne] at hc
    split at hc
    · exact absurd hc (by simp)
    · obtain rfl := Option.some.inj hc
      constructor
      · split_ifs <;> simp [Categories.empty]
      · split_ifs <;> simp [Categories.empty]

/-- Witness for C6 (amended): an ordinary page URL on the target host lands
in exactly the `internal` bucket and no type bucket. -/
theorem categorize_buckets_amended_witness :
    (⟨["https://example.com/a"], [], [], [], [], []⟩ : Categories).internal.length +
      (⟨["https://example.com/a"], [], [], [], [], []⟩ : Categories).subdomains.length +
      (⟨["https://example.com/a"], [], [], [], [], []⟩ : Categories).external.length = 1 ∧
    (⟨["https://example.com/a"], [], [], [], [], []⟩ : Categories).files.length +
      (⟨["https://example.com/a"], [], [], [], [], []⟩ : Categories).apis.length +
      (⟨["https://example.com/a"], [], [], [], [], []⟩ : Categories).static.length ≤ 1 :=
  categorize_buckets_amended (mkURLFilter (some "https://example.com") true [] [])
    "https://example.com/a" ⟨["https://example.com/a"], [], [], [], [], []⟩
    ⟨by decide, by decide⟩ rfl
